import Mathlib

/-!
Verification development for the T132 event-database core
(row normalizer, event field extractor, event aggregator, temporal
classifier, identity extractor, fuzzy matcher).

The JavaScript source is shallowly embedded: strings are Lean `String`s
manipulated through explicit character-list helpers mirroring the
JavaScript string methods used by the source (`trim`, `toLowerCase`,
`includes`, `split(/\s+/)`, `padStart`), JavaScript numbers appearing in
the similarity scoring are embedded as rationals, and the `Map`/object
structures are embedded as insertion-ordered association lists.
-/

/-- Embedding of JavaScript `String.prototype.toLowerCase` (ASCII range,
which covers every use in the source). -/
def jsToLower (s : String) : String :=
  String.mk (s.data.map Char.toLower)

/-- Character-list form of trimming from the left. -/
def dropWsLeft (cs : List Char) : List Char :=
  cs.dropWhile Char.isWhitespace

/-- Embedding of JavaScript `String.prototype.trim`: whitespace removed
from both ends. -/
def jsTrim (s : String) : String :=
  String.mk (((dropWsLeft s.data).reverse.dropWhile Char.isWhitespace).reverse)

/-- Tests whether the first list occurs at the head of the second list. -/
def leadsWith : List Char → List Char → Bool
  | [], _ => true
  | _ :: _, [] => false
  | a :: as, b :: bs => a == b && leadsWith as bs

/-- Tests whether `pat` occurs as a contiguous run inside `text`. -/
def sublistB (pat : List Char) : List Char → Bool
  | [] => pat.isEmpty
  | c :: rest => leadsWith pat (c :: rest) || sublistB pat rest

/-- Embedding of JavaScript `s.includes(sub)`. -/
def jsIncludes (s sub : String) : Bool :=
  sublistB sub.data s.data

/-- Embedding of the JavaScript idiom `a || b` on strings (the empty
string is falsy). -/
def jsOrStr (a b : String) : String :=
  if a = "" then b else a

/-- Worker for `jsSplitWs`: `inWs` records whether the previous character
belonged to a whitespace run, `cur` accumulates the current piece in
reverse. -/
def splitWsGo (inWs : Bool) (cur : List Char) : List Char → List String
  | [] => [String.mk cur.reverse]
  | c :: rest =>
    if c.isWhitespace then
      if inWs then splitWsGo true [] rest
      else String.mk cur.reverse :: splitWsGo true [] rest
    else splitWsGo false (c :: cur) rest

/-- Embedding of JavaScript `s.split(/\s+/)`: the pieces between maximal
whitespace runs, with an empty leading (or trailing) piece when the
string starts (or ends) with whitespace. -/
def jsSplitWs (s : String) : List String :=
  splitWsGo false [] s.data

/-- One row of the Levenshtein recurrence: given `g = lev xs`, computes
`lev (x :: xs)` by structural recursion on the second string, so that the
whole definition kernel-reduces. -/
def levStep (x : Char) (g : List Char → Nat) : List Char → Nat
  | [] => g [] + 1
  | y :: ys =>
    min (min (g (y :: ys) + 1) (levStep x g ys + 1))
      (g ys + (if x = y then 0 else 1))

/-- Classic unit-cost Levenshtein distance, the value computed by the
dynamic-programming matrix in `calculateSimilarity` of the source. -/
def lev : List Char → List Char → Nat
  | [] => fun ys => ys.length
  | x :: xs => levStep x (lev xs)

/-- Embedding of `calculateSimilarity` from the search module: falsy-input
guard, exact match after lowercasing and trimming, substring match at
0.8, then the Levenshtein-based ratio (the two zero-length base cases of
the source are embedded as written even though the substring branch
already covers them). -/
def calculateSimilarity (str1 str2 : String) : ℚ :=
  if str1 = "" ∨ str2 = "" then 0
  else
    let s1 := jsTrim (jsToLower str1)
    let s2 := jsTrim (jsToLower str2)
    if s1 = s2 then 1
    else if jsIncludes s1 s2 || jsIncludes s2 s1 then 8/10
    else
      let len1 := s1.length
      let len2 := s2.length
      if len1 = 0 then (if len2 = 0 then 1 else 0)
      else if len2 = 0 then 0
      else 1 - (lev s1.data s2.data : ℚ) / (max len1 len2 : ℚ)

/-- One row of sheet data after normalization: an insertion-ordered
association list from column name to string cell value, the embedding of
the JavaScript object built by `parseSheetData`. -/
abbrev Row := List (String × String)

/-- Raw Google-Sheets table structure handed to `parseSheetData`: each
column carries an optional label (`none` embeds a null column or missing
label) and each cell optionally carries the string form of its value
(`none` embeds a null or absent value). -/
structure SheetTable where
  cols : List (Option String)
  rows : List (List (Option String))
deriving DecidableEq

/-- Normalized payload produced by `parseSheetData`. -/
structure Payload where
  columns : List String
  rows : List Row
deriving DecidableEq

/-- Embedding of JavaScript object-property assignment
`rowData[columnName] = value`: overwrite an existing key in place, append
a new key at the end. -/
def setKey : Row → String → String → Row
  | [], k, v => [(k, v)]
  | kv :: rest, k, v =>
    if kv.1 = k then (k, v) :: rest else kv :: setKey rest k v

/-- Embedding of `(cell && cell.v !== null && cell.v !== undefined) ?
String(cell.v) : ''` from `parseSheetData`. -/
def cellValue (c : Option String) : String := c.getD ""

/-- Embedding of the per-cell column-name choice in `parseSheetData`:
`(columns[index]) ? columns[index] : "Column" + (index + 1)` evaluated
against the blank-filtered column list. -/
def columnNameFor (columns : List String) (i : Nat) : String :=
  match columns.get? i with
  | some l => if l = "" then "Column" ++ toString (i + 1) else l
  | none => "Column" ++ toString (i + 1)

/-- Worker for `processRow`, carrying the running cell index of the
`row.c.forEach((cell, index) => ...)` loop. -/
def processCells (columns : List String) : Nat → List (Option String) → Row → Row
  | _, [], rd => rd
  | i, c :: rest, rd =>
    processCells columns (i + 1) rest (setKey rd (columnNameFor columns i) (cellValue c))

/-- Builds the row object of `parseSheetData` from one raw cell list. -/
def processRow (columns : List String) (cells : List (Option String)) : Row :=
  processCells columns 0 cells []

/-- Embedding of `Object.values(rowData).some(val => val && val.trim() !== '')`. -/
def rowHasData (rd : Row) : Bool :=
  rd.any (fun kv => kv.2 != "" && jsTrim kv.2 != "")

/-- Embedding of `parseSheetData` from the Google-Sheet module: column
labels default to the empty string and blank labels are filtered out;
each raw row becomes an object keyed by column name (synthetic
`ColumnN` names past the filtered label list) and is kept only when some
cell value trims to a non-empty string. -/
def parseSheetData (t : SheetTable) : Payload :=
  let columns := (t.cols.map (fun c => c.getD "")).filter (fun l => l != "")
  { columns := columns
    rows := t.rows.filterMap (fun cells =>
      let rd := processRow columns cells
      if rowHasData rd then some rd else none) }

/-- Embedding of JavaScript `row[col] || ''` against the row object. -/
def rowGet (r : Row) (k : String) : String :=
  match r.find? (fun kv => kv.1 == k) with
  | some kv => kv.2
  | none => ""

/-- Embedding of the column-resolution idiom
`columns.find(p1) || columns.find(p2) || ... || literal` — a found label
or an in-range positional label is used only when truthy (non-empty). -/
def truthyOr (a : Option String) (b : String) : String :=
  match a with
  | some s => if s = "" then b else s
  | none => b

/-- Structured signup record produced by `extractEventFromRow`. -/
structure SignupInfo where
  scoutName : String
  eventName : String
  startDate : String
  endDate : String
  category : String
  isAdult : Bool
  rawRow : Row
deriving DecidableEq

/-- Consumes the regex fragment `\s*-\s*`: optional whitespace, a
literal dash, optional whitespace; returns the rest of the input. -/
def matchDashWs (l : List Char) : Option (List Char) :=
  match dropWsLeft l with
  | '-' :: r => some (dropWsLeft r)
  | _ => none

/-- Consumes the regex fragment `(\d{1,2})\/`: one or two digits (greedy,
the single-digit alternative is reachable only when the second character
is the slash) followed by a literal slash. -/
def matchMonthSlash : List Char → Option (String × List Char)
  | c1 :: c2 :: rest =>
    if c1.isDigit && c2.isDigit then
      match rest with
      | '/' :: r2 => some (String.mk [c1, c2], r2)
      | _ => none
    else if c1.isDigit && c2 == '/' then some (String.mk [c1], rest)
    else none
  | _ => none

/-- Consumes the final regex fragment `(\d{1,2})` of the date pattern:
one or two digits, greedy. -/
def matchDay : List Char → Option String
  | c1 :: c2 :: _ =>
    if c1.isDigit && c2.isDigit then some (String.mk [c1, c2])
    else if c1.isDigit then some (String.mk [c1])
    else none
  | [c1] => if c1.isDigit then some (String.mk [c1]) else none
  | [] => none

/-- Attempts the date regex `(\d{4})\s*-\s*(\d{1,2})\/(\d{1,2})` at the
current position, returning the three captured digit groups. -/
def matchDateAt : List Char → Option (String × String × String)
  | a :: b :: c :: d :: rest =>
    if a.isDigit && b.isDigit && c.isDigit && d.isDigit then
      match matchDashWs rest with
      | some r1 =>
        match matchMonthSlash r1 with
        | some (mo, r2) =>
          match matchDay r2 with
          | some da => some (String.mk [a, b, c, d], mo, da)
          | none => none
        | none => none
      | none => none
    else none
  | _ => none

/-- Embedding of `eventName.match(/(\d{4})\s*-\s*(\d{1,2})\/(\d{1,2})/)`:
the leftmost position where the pattern matches wins. -/
def findDate : List Char → Option (String × String × String)
  | [] => none
  | c :: rest =>
    match matchDateAt (c :: rest) with
    | some m => some m
    | none => findDate rest

/-- Consumes `(\d{1,2})\s*-\s*` in the prefix-stripping regex: the day
digits (greedy, with the regex backtrack to a single digit) followed by
whitespace, a dash and whitespace. -/
def matchDaySuffix : List Char → Option (List Char)
  | c1 :: c2 :: rest =>
    if c1.isDigit && c2.isDigit then
      match matchDashWs rest with
      | some r => some r
      | none => matchDashWs (c2 :: rest)
    else if c1.isDigit then matchDashWs (c2 :: rest)
    else none
  | [c1] => if c1.isDigit then matchDashWs [] else none
  | [] => none

/-- Attempts the anchored prefix regex
`^\d{4}\s*-\s*\d{1,2}\/\d{1,2}\s*-\s*` and returns the remainder on
success. -/
def matchStripAt : List Char → Option (List Char)
  | a :: b :: c :: d :: rest =>
    if a.isDigit && b.isDigit && c.isDigit && d.isDigit then
      match matchDashWs rest with
      | some r1 =>
        match matchMonthSlash r1 with
        | some (_, r2) => matchDaySuffix r2
        | none => none
      | none => none
    else none
  | _ => none

/-- Embedding of
`eventName.replace(/^\d{4}\s*-\s*\d{1,2}\/\d{1,2}\s*-\s*/, '')`. -/
def stripDatePre (s : String) : String :=
  match matchStripAt s.data with
  | some rest => String.mk rest
  | none => s

/-- Embedding of `String.prototype.padStart(2, '0')` as used on the
captured month and day groups. -/
def pad2 (s : String) : String :=
  if s.length ≥ 2 then s else "0" ++ s

/-- Start and end date derived from the trimmed event name: on a date
match the zero-padded ISO start date with the end date defaulting to the
same value, otherwise two empty strings. -/
def extractDates (eventName0 : String) : String × String :=
  match findDate eventName0.data with
  | some (y, mo, da) =>
    let startDate := y ++ "-" ++ pad2 mo ++ "-" ++ pad2 da
    (startDate, startDate)
  | none => ("", "")

/-- Embedding of the ordered category chain of `extractEventFromRow`. -/
def categorize (cleanName : String) : String :=
  let lower := jsToLower cleanName
  if jsIncludes lower "eagle project" then "Eagle Project"
  else if jsIncludes lower "service project" then "Service Project"
  else if jsIncludes lower "fundraiser" then "Fundraiser"
  else if jsIncludes lower "camp" then "Camping"
  else "Other"

/-- Embedding of `extractEventFromRow` from the Google-Sheet module:
heuristic column resolution with positional and literal fallbacks, name
concatenation, adult detection, date extraction and zero-padding, prefix
stripping, and ordered category classification. -/
def extractEventFromRow (row : Row) (columns : List String) : SignupInfo :=
  let eventCol :=
    truthyOr (columns.find? (fun col =>
        jsIncludes (jsToLower col) "event" && jsIncludes (jsToLower col) "signup"))
      (truthyOr (columns.find? (fun col =>
          jsIncludes (jsToLower col) "event" || jsIncludes (jsToLower col) "activity"))
        (truthyOr (columns.get? 1) "Event"))
  let firstNameCol :=
    truthyOr (columns.find? (fun col =>
        jsIncludes (jsToLower col) "first" && jsIncludes (jsToLower col) "name"))
      (truthyOr (columns.get? 2) "First Name")
  let lastNameCol :=
    truthyOr (columns.find? (fun col =>
        jsIncludes (jsToLower col) "last" && jsIncludes (jsToLower col) "name"))
      (truthyOr (columns.get? 3) "Last Name")
  let patrolCol :=
    truthyOr (columns.find? (fun col =>
        jsIncludes (jsToLower col) "patrol" || jsIncludes (jsToLower col) "leader"))
      (truthyOr (columns.get? 6) "Patrol Leader - Patrol?")
  let eventNameFull := rowGet row eventCol
  let firstName := rowGet row firstNameCol
  let lastName := rowGet row lastNameCol
  let patrolValue := rowGet row patrolCol
  let scoutName := jsTrim (firstName ++ " " ++ lastName)
  let isAdult := patrolValue != "" && jsIncludes (jsToLower patrolValue) "adult"
  let eventName0 := jsTrim eventNameFull
  let dates := extractDates eventName0
  let eventName := jsTrim (stripDatePre eventName0)
  { scoutName := scoutName
    eventName := eventName
    startDate := dates.1
    endDate := dates.2
    category := categorize eventName
    isAdult := isAdult
    rawRow := row }

/-- Aggregated event record built by `convertSheetToEvents`: a unique
event per key holding the signup names pushed into its `scouts` and
`adults` arrays. -/
structure EventRec where
  eventName : String
  startDate : String
  endDate : String
  category : String
  scouts : List String
  adults : List String
deriving DecidableEq

/-- Aggregation key of `convertSheetToEvents`:
lowercase of `eventName + "_" + startDate + "_" + endDate`. -/
def eventKeyOf (name start stop : String) : String :=
  jsToLower (name ++ "_" ++ start ++ "_" ++ stop)

/-- Aggregation key recomputed from a stored event record. -/
def recordKey (e : EventRec) : String :=
  eventKeyOf e.eventName e.startDate e.endDate

/-- Fresh event record created on the first signup for a key
(`endDate: eventInfo.endDate || eventInfo.startDate`). -/
def freshEvent (info : SignupInfo) : EventRec :=
  { eventName := info.eventName
    startDate := info.startDate
    endDate := jsOrStr info.endDate info.startDate
    category := info.category
    scouts := []
    adults := [] }

/-- Embedding of the per-signup push with its exact-membership dedup
(`!event.adults.includes(personName)` respectively
`!event.scouts.includes(personName)`). -/
def addPerson (info : SignupInfo) (e : EventRec) : EventRec :=
  let personName := jsTrim info.scoutName
  if personName = "" then e
  else if info.isAdult then
    if personName ∈ e.adults then e
    else { e with adults := e.adults ++ [personName] }
  else
    if personName ∈ e.scouts then e
    else { e with scouts := e.scouts ++ [personName] }

/-- Applies `f` to the entry stored at `k` in the insertion-ordered map
(the embedding of mutating the object fetched by `eventsMap.get`). -/
def updateAt (k : String) (f : EventRec → EventRec) (m : List (String × EventRec)) :
    List (String × EventRec) :=
  m.map (fun kv => if kv.1 = k then (kv.1, f kv.2) else kv)

/-- Invariant of the event map during aggregation: stored keys are
pairwise distinct, each stored key is the aggregation key recomputed
from its record, and each record's name arrays are duplicate-free. -/
def GoodMap (m : List (String × EventRec)) : Prop :=
  (m.map Prod.fst).Nodup ∧
    ∀ kv ∈ m, kv.1 = recordKey kv.2 ∧ kv.2.scouts.Nodup ∧ kv.2.adults.Nodup

/-- Processes one signup row inside `convertSheetToEvents`: rows lacking
a truthy event name, start date or person name are skipped; otherwise
the event for the key is created on first sight and the person is pushed
into its scouts or adults array. -/
def addSignup (m : List (String × EventRec)) (info : SignupInfo) :
    List (String × EventRec) :=
  if info.eventName != "" && info.startDate != "" && info.scoutName != "" then
    let key := eventKeyOf info.eventName info.startDate info.endDate
    let m1 := if m.any (fun kv => kv.1 == key) then m else m ++ [(key, freshEvent info)]
    updateAt key (addPerson info) m1
  else m

/-- Embedding of `convertSheetToEvents`: fold the signup rows into the
insertion-ordered event map, then return the stored event records in
insertion order. -/
def convertSheetToEvents (sheetData : Payload) : List EventRec :=
  (sheetData.rows.foldl
    (fun m row => addSignup m (extractEventFromRow row sheetData.columns)) []).map
    (fun kv => kv.2)

/-- Month lengths of the Gregorian calendar, as validated by the
JavaScript ISO date parser. -/
def daysInMonth (y m : Nat) : Nat :=
  if m = 2 then (if (y % 4 = 0 ∧ y % 100 ≠ 0) ∨ y % 400 = 0 then 29 else 28)
  else if m = 4 ∨ m = 6 ∨ m = 9 ∨ m = 11 then 30
  else 31

/-- Numeric value of a digit character. -/
def digitVal (c : Char) : Nat := c.toNat - '0'.toNat

/-- Embedding of `new Date(s)` with the time-of-day zeroed, for the ISO
`YYYY-MM-DD` strings this pipeline produces: a calendar-ordered encoding
of the date on success, `none` for an invalid date (whose comparisons
are all false in JavaScript). -/
def parseJsDate (s : String) : Option Nat :=
  match s.data with
  | [y1, y2, y3, y4, '-', m1, m2, '-', d1, d2] =>
    if y1.isDigit && y2.isDigit && y3.isDigit && y4.isDigit &&
        m1.isDigit && m2.isDigit && d1.isDigit && d2.isDigit then
      let y := ((digitVal y1 * 10 + digitVal y2) * 10 + digitVal y3) * 10 + digitVal y4
      let m := digitVal m1 * 10 + digitVal m2
      let d := digitVal d1 * 10 + digitVal d2
      if 1 ≤ m ∧ m ≤ 12 ∧ 1 ≤ d ∧ d ≤ daysInMonth y m then
        some (y * 512 + m * 32 + d)
      else none
    else none
  | _ => none

/-- Comparison date of the classifier in `initializeApp`:
`event.endDate || event.startDate`. -/
def comparisonDate (e : EventRec) : String :=
  jsOrStr e.endDate e.startDate

/-- Embedding of `eventDate < today` for one event: false whenever the
date fails to parse (`NaN` comparisons are false, the fail-open branch
of the classifier). -/
def isPastB (e : EventRec) (today : Nat) : Bool :=
  match parseJsDate (comparisonDate e) with
  | some d => decide (d < today)
  | none => false

/-- Embedding of the classification loop of `initializeApp`: each event
is pushed onto the future or the past list. Returns
`(futureEvents, pastEvents)`. -/
def classifyEvents (evs : List EventRec) (today : Nat) :
    List EventRec × List EventRec :=
  evs.foldl
    (fun fp e => if isPastB e today then (fp.1, fp.2 ++ [e]) else (fp.1 ++ [e], fp.2))
    ([], [])

/-- Identity record built by `extractUniqueScouts`. -/
structure Identity where
  fullName : String
  firstName : String
  lastName : String
  normalized : String
deriving DecidableEq

/-- Identity object built on first sight of a spelling inside
`extractUniqueScouts`: the name parts come from splitting the trimmed
name on whitespace runs (`name.split(/\s+/)`), the first token as the
first name and the remaining tokens joined by single spaces as the last
name, with the lowercased dedup key. -/
def mkIdentity (name : String) : Identity :=
  let parts := jsSplitWs name
  { fullName := name
    firstName := parts.headD ""
    lastName := String.intercalate " " (parts.drop 1)
    normalized := jsToLower name }

/-- Processes one scouts-array entry inside `extractUniqueScouts`: trim,
skip when empty, dedup on the lowercased key, and store the identity
object derived from the first-seen spelling. -/
def addScout (acc : List Identity) (raw : String) : List Identity :=
  let name := jsTrim raw
  if name = "" then acc
  else
    let normalized := jsToLower name
    if acc.any (fun id => id.normalized == normalized) then acc
    else acc ++ [mkIdentity name]

/-- Embedding of `extractUniqueScouts` from the search module: walk the
scouts arrays of the future events and then of the past events,
collecting first-seen identities in insertion order. -/
def extractUniqueScouts (futureEvents pastEvents : List EventRec) : List Identity :=
  let m1 := futureEvents.foldl (fun acc e => e.scouts.foldl addScout acc) []
  pastEvents.foldl (fun acc e => e.scouts.foldl addScout acc) m1

/-- Per-identity score of `searchScouts`: sequential maxima over the
full-name, first-name and last-name similarities (the name scores at 0.9
weight, each gated on its raw similarity exceeding 0.3), then the
substring bonus forcing at least 0.7. -/
def scoutScore (searchTerm : String) (s : Identity) : ℚ :=
  let fullNameScore := calculateSimilarity s.fullName searchTerm
  let score1 : ℚ := if fullNameScore > 3/10 then max 0 fullNameScore else 0
  let firstNameScore := calculateSimilarity s.firstName searchTerm
  let score2 := if firstNameScore > 3/10 then max score1 (firstNameScore * (9/10)) else score1
  let lastNameScore := calculateSimilarity s.lastName searchTerm
  let score3 := if lastNameScore > 3/10 then max score2 (lastNameScore * (9/10)) else score2
  if jsIncludes (jsToLower s.fullName) searchTerm ||
      jsIncludes (jsToLower s.firstName) searchTerm ||
      jsIncludes (jsToLower s.lastName) searchTerm then
    max score3 (7/10)
  else score3

/-- Scored result list of `searchScouts` before sorting, in corpus
order: only identities scoring above 0.3 are pushed. -/
def collectScored (searchTerm : String) (corpus : List Identity) :
    List (Identity × ℚ) :=
  corpus.foldl
    (fun rs s =>
      if scoutScore searchTerm s > 3/10 then rs ++ [(s, scoutScore searchTerm s)] else rs)
    []

/-- Ranking order of `results.sort((a, b) => b.score - a.score)`:
descending by score. JavaScript guarantees a stable sort, embedded here
as a stable insertion sort. -/
def rankRel (a b : Identity × ℚ) : Prop := b.2 ≤ a.2

instance : DecidableRel rankRel := fun a b => inferInstanceAs (Decidable (b.2 ≤ a.2))

instance : IsTotal (Identity × ℚ) rankRel := ⟨fun a b => le_total b.2 a.2⟩

instance : IsTrans (Identity × ℚ) rankRel :=
  ⟨fun _ _ _ h1 h2 => le_trans h2 h1⟩

/-- Sorted scored results of `searchScouts`, after the guards on a blank
query and an empty corpus. -/
def searchScoutsScored (query : String) (corpus : List Identity) :
    List (Identity × ℚ) :=
  if jsTrim query = "" then []
  else if corpus.isEmpty then []
  else
    let searchTerm := jsToLower (jsTrim query)
    List.insertionSort rankRel (collectScored searchTerm corpus)

/-- Embedding of `searchScouts` from the search module: guard the blank
query and empty corpus, score, filter at 0.3, sort descending by score
(stable) and return the identities. -/
def searchScouts (query : String) (corpus : List Identity) : List Identity :=
  (searchScoutsScored query corpus).map (fun r => r.1)

/-- Caller-held application state rebuilt by each ingestion pass of
`initializeApp` / the auto-refresh loop. -/
structure AppState where
  futureEvents : List EventRec
  pastEvents : List EventRec
  allScouts : List Identity
deriving DecidableEq

/-- One full ingestion pass over a raw table at a fixed reference date:
parse, aggregate, classify, extract identities. The previous state is
overwritten wholesale, exactly as `initializeApp` reassigns the three
module-level variables. -/
def ingest (_prev : AppState) (t : SheetTable) (today : Nat) : AppState :=
  let allEvents := convertSheetToEvents (parseSheetData t)
  let (fut, past) := classifyEvents allEvents today
  { futureEvents := fut
    pastEvents := past
    allScouts := extractUniqueScouts fut past }

/-- Column labels of the documented sheet layout, used by the concrete
test rows below. -/
def exCols : List String :=
  ["Timestamp", "Which event did you signup for?", "First Name", "Last Name",
   "Email", "Phone", "Patrol Leader - Patrol?"]

/-- Concrete signup row of the specification's worked example. -/
def exRowC5 : Row :=
  [("Timestamp", "t"),
   ("Which event did you signup for?",
    "2025 - 11/29 - Leaf Center Service Project (2 pm - 4 pm)"),
   ("First Name", "Jane"),
   ("Last Name", "Doe"),
   ("Patrol Leader - Patrol?", "Scout")]

/-- Second signup row for the same event whose person name differs from
the first row's only in casing. -/
def exRowC1 : Row :=
  [("Timestamp", "t"),
   ("Which event did you signup for?",
    "2025 - 11/29 - Leaf Center Service Project (2 pm - 4 pm)"),
   ("First Name", "jane"),
   ("Last Name", "doe"),
   ("Patrol Leader - Patrol?", "Scout")]

/-- Concrete payload with two rows naming the same person in different
casings for the same event. -/
def exSheetC1 : Payload :=
  { columns := exCols, rows := [exRowC5, exRowC1] }

/-- Concrete raw table whose first column label is blank and whose
second is "B". -/
def exTableC3 : SheetTable :=
  { cols := [some "", some "B"], rows := [[some "x", some "y"]] }

/-- Aggregated event produced from `exSheetC1`. -/
def exEventC1 : EventRec :=
  { eventName := "Leaf Center Service Project (2 pm - 4 pm)"
    startDate := "2025-11-29"
    endDate := "2025-11-29"
    category := "Service Project"
    scouts := ["Jane Doe", "jane doe"]
    adults := [] }

/-- Normalized dedup key of the specification's set invariant. -/
def normKey (s : String) : String := jsToLower (jsTrim s)

/-- Small concrete identity used by the search witnesses. -/
def exIdentityAl : Identity :=
  { fullName := "Al Bo", firstName := "Al", lastName := "Bo", normalized := "al bo" }

/-- Claim-side check that no two entries of a list share a normalized
(lowercase, trimmed) form. -/
def normDistinct : List String → Bool
  | [] => true
  | x :: rest => rest.all (fun y => normKey y != normKey x) && normDistinct rest

/-- Claim-side column label rule, following the claim's words: the
provided label at index `i` when that label is non-blank, otherwise the
synthetic label `ColumnN` with `N = i + 1`. -/
def claimLabelC3 (labels : List String) (i : Nat) : String :=
  match labels.get? i with
  | some l => if l = "" then "Column" ++ toString (i + 1) else l
  | none => "Column" ++ toString (i + 1)

/-- Claim-side row mapping built with the claim's per-index label rule
(cell values as their string form or empty). -/
def claimRowC3 (labels : List String) : Nat → List (Option String) → Row → Row
  | _, [], rd => rd
  | i, c :: rest, rd =>
    claimRowC3 labels (i + 1) rest (setKey rd (claimLabelC3 labels i) (cellValue c))

/-- First-seen deduplication keyed by the lowercase form, with an
explicit list of already-seen keys; spec-side description of the
identity extractor's ordering. -/
def dedupSeen (seen : List String) : List String → List String
  | [] => []
  | n :: ns =>
    if jsToLower n ∈ seen then dedupSeen seen ns
    else n :: dedupSeen (jsToLower n :: seen) ns

/-- First-seen deduplication of a name list under the lowercase key. -/
def dedupFirstSeen (l : List String) : List String := dedupSeen [] l

/-- Claim-side score formula for `searchScouts`: the maximum of the
full-name similarity at full weight and the first/last-name similarities
at 0.9 weight, each contributing only when its raw similarity exceeds
0.3, with the score forced to at least 0.7 when the query occurs as a
case-insensitive substring of any of the three names. -/
def claimScoreC6 (searchTerm : String) (s : Identity) : ℚ :=
  let cand : ℚ :=
    max (max (if calculateSimilarity s.fullName searchTerm > 3/10 then
                calculateSimilarity s.fullName searchTerm else 0)
             (if calculateSimilarity s.firstName searchTerm > 3/10 then
                calculateSimilarity s.firstName searchTerm * (9/10) else 0))
        (if calculateSimilarity s.lastName searchTerm > 3/10 then
           calculateSimilarity s.lastName searchTerm * (9/10) else 0)
  if jsIncludes (jsToLower s.fullName) searchTerm ||
      jsIncludes (jsToLower s.firstName) searchTerm ||
      jsIncludes (jsToLower s.lastName) searchTerm then
    max cand (7/10)
  else cand


theorem lev_nil_right (xs : List Char) : lev xs [] = xs.length := by
  induction xs with
  | nil => rfl
  | cons x xs ih => simp [lev, levStep, ih]

theorem lev_cons_cons (x y : Char) (xs ys : List Char) :
    lev (x :: xs) (y :: ys) =
      min (min (lev xs (y :: ys) + 1) (lev (x :: xs) ys + 1))
        (lev xs ys + (if x = y then 0 else 1)) := rfl

theorem lev_comm (xs ys : List Char) : lev xs ys = lev ys xs := by
  induction xs generalizing ys with
  | nil => rw [lev_nil_right]; rfl
  | cons x xs ih =>
    induction ys with
    | nil => rw [lev_nil_right]; rfl
    | cons y ys ih2 =>
      rw [lev_cons_cons, lev_cons_cons, ih (y :: ys), ih2, ih ys]
      have hcost : (if x = y then 0 else 1) = (if y = x then 0 else 1) := by
        simp [eq_comm]
      rw [hcost, Nat.min_comm (lev (y :: ys) xs + 1) (lev ys (x :: xs) + 1)]

theorem lev_le_max (xs ys : List Char) : lev xs ys ≤ max xs.length ys.length := by
  induction xs generalizing ys with
  | nil => simp [lev]
  | cons x xs ih =>
    cases ys with
    | nil => rw [lev_nil_right]; simp
    | cons y ys =>
      rw [lev_cons_cons]
      have h3 : lev xs ys + (if x = y then 0 else 1) ≤ max xs.length ys.length + 1 := by
        have := ih ys
        split <;> omega
      have h4 : max xs.length ys.length + 1 = max (x :: xs).length (y :: ys).length := by
        simp [Nat.succ_max_succ]
      calc min (min (lev xs (y :: ys) + 1) (lev (x :: xs) ys + 1))
            (lev xs ys + (if x = y then 0 else 1))
          ≤ lev xs ys + (if x = y then 0 else 1) := min_le_right _ _
        _ ≤ max xs.length ys.length + 1 := h3
        _ = max (x :: xs).length (y :: ys).length := h4

theorem string_length_data (s : String) : s.data.length = s.length := rfl

/-- C2 counterexample: the similarity of the empty string with itself is
0, not the claimed 1, because the falsy-input guard of
`calculateSimilarity` returns 0 for any empty argument. -/
theorem calculateSimilarity_empty_empty_ne_one : calculateSimilarity "" "" ≠ 1 := by
  decide

theorem similarity_in_range (a b : String) :
    0 ≤ calculateSimilarity a b ∧ calculateSimilarity a b ≤ 1 := by
  simp only [calculateSimilarity]
  split_ifs with h1 h2 h3 h4 h5 h6
  · norm_num
  · norm_num
  · norm_num
  · norm_num
  · norm_num
  · norm_num
  · set s1 := jsTrim (jsToLower a) with hs1
    set s2 := jsTrim (jsToLower b) with hs2
    have hm : 0 < max s1.length s2.length := by omega
    have hlev : lev s1.data s2.data ≤ max s1.length s2.length := by
      have := lev_le_max s1.data s2.data
      rwa [string_length_data, string_length_data] at this
    have hcast : ((max s1.length s2.length : Nat) : ℚ) = max (s1.length : ℚ) (s2.length : ℚ) := by
      push_cast
      rfl
    have hmq : (0 : ℚ) < max (s1.length : ℚ) (s2.length : ℚ) := by
      rw [← hcast]; exact_mod_cast hm
    have hdiv1 : (lev s1.data s2.data : ℚ) / max (s1.length : ℚ) (s2.length : ℚ) ≤ 1 := by
      rw [div_le_one hmq, ← hcast]
      exact_mod_cast hlev
    have hdiv0 : (0 : ℚ) ≤ (lev s1.data s2.data : ℚ) / max (s1.length : ℚ) (s2.length : ℚ) := by
      positivity
    constructor <;> linarith

/-- C2 (amended): `calculateSimilarity` always lies in [0, 1] and equals
1 on every pair of equal non-empty strings, but the empty-vs-empty pair
scores 0 (the falsy-input guard fires before the exact-match test), and
`calculateSimilarity "x" "" = 0`. -/
theorem calculateSimilarity_bounds (a b : String) :
    (0 ≤ calculateSimilarity a b ∧ calculateSimilarity a b ≤ 1) ∧
    (a ≠ "" → calculateSimilarity a a = 1) ∧
    calculateSimilarity "" "" = 0 ∧ calculateSimilarity "x" "" = 0 := by
  refine ⟨similarity_in_range a b, ?_, by decide, by decide⟩
  intro ha
  simp only [calculateSimilarity]
  rw [if_neg (by simp [ha])]
  simp

/-- C2 witness: the amended theorem applied at the concrete pair
("ab", "cd"), with the non-emptiness hypothesis discharged there. -/
theorem calculateSimilarity_bounds_witness :
    ("ab" : String) ≠ "" ∧ calculateSimilarity "ab" "ab" = 1 :=
  ⟨by decide, (calculateSimilarity_bounds "ab" "cd").2.1 (by decide)⟩

/-- C10: `calculateSimilarity` is symmetric in its two arguments — every
branch of the source (falsy guard, exact match, mutual substring test,
zero-length base cases, Levenshtein ratio) is invariant under swapping
the strings. -/
theorem calculateSimilarity_comm (a b : String) :
    calculateSimilarity a b = calculateSimilarity b a := by
  simp only [calculateSimilarity]
  by_cases h1 : a = "" ∨ b = ""
  · rw [if_pos h1, if_pos (Or.symm h1)]
  · rw [if_neg h1, if_neg (fun h => h1 (Or.symm h))]
    set s1 := jsTrim (jsToLower a) with hs1
    set s2 := jsTrim (jsToLower b) with hs2
    by_cases h2 : s1 = s2
    · rw [if_pos h2, if_pos h2.symm]
    · rw [if_neg h2, if_neg (Ne.symm h2)]
      simp only [Bool.or_eq_true]
      by_cases h3 : jsIncludes s1 s2 = true ∨ jsIncludes s2 s1 = true
      · rw [if_pos h3, if_pos (Or.symm h3)]
      · rw [if_neg h3, if_neg (fun h => h3 (Or.symm h))]
        by_cases h4 : s1.length = 0 <;> by_cases h5 : s2.length = 0 <;>
          simp [h4, h5, lev_comm s1.data s2.data, max_comm]

theorem mem_setKey {kv : String × String} {rd : Row} {k v : String}
    (h : kv ∈ setKey rd k v) : kv ∈ rd ∨ kv = (k, v) := by
  induction rd with
  | nil =>
    simp [setKey] at h
    exact Or.inr (by simp [h])
  | cons hd tl ih =>
    simp only [setKey] at h
    split at h
    · rcases List.mem_cons.mp h with h1 | h1
      · exact Or.inr h1
      · exact Or.inl (List.mem_cons_of_mem _ h1)
    · rcases List.mem_cons.mp h with h1 | h1
      · exact Or.inl (h1 ▸ List.mem_cons_self _ _)
      · rcases ih h1 with h2 | h2
        · exact Or.inl (List.mem_cons_of_mem _ h2)
        · exact Or.inr h2

theorem mem_processCells (columns : List String) (cells : List (Option String)) :
    ∀ (i : Nat) (rd : Row) (kv : String × String), kv ∈ processCells columns i cells rd →
      kv ∈ rd ∨ ∃ j c, cells.get? j = some c ∧
        kv = (columnNameFor columns (i + j), cellValue c) := by
  induction cells with
  | nil => exact fun i rd kv h => Or.inl h
  | cons c rest ih =>
    intro i rd kv h
    rw [processCells] at h
    rcases ih (i + 1) _ kv h with h1 | ⟨j, c', hj, hkv⟩
    · rcases mem_setKey h1 with h2 | h2
      · exact Or.inl h2
      · exact Or.inr ⟨0, c, rfl, by simpa using h2⟩
    · refine Or.inr ⟨j + 1, c', by simpa using hj, ?_⟩
      rwa [show i + (j + 1) = i + 1 + j by omega]

/-- C3 (amended): in `parseSheetData` the blank column labels are
filtered out before cells are mapped, so every key-value pair of every
emitted row arises from some cell index `j` whose key is the `j`-th
entry of the blank-filtered label list when it exists — not the provided
label at index `j` — and otherwise the synthetic label `Column(j+1)`;
the value is the string form of the cell's value, or the empty string
when the cell is null or absent. -/
theorem parseSheetData_mapping (t : SheetTable) (rd : Row)
    (hrd : rd ∈ (parseSheetData t).rows) (kv : String × String) (hkv : kv ∈ rd) :
    ((parseSheetData t).columns =
        (t.cols.map (fun c => c.getD "")).filter (fun l => l != "")) ∧
    (∀ l ∈ (parseSheetData t).columns, l ≠ "") ∧
    ∃ cells, cells ∈ t.rows ∧ ∃ j c, cells.get? j = some c ∧
      kv = (columnNameFor (parseSheetData t).columns j, cellValue c) := by
  refine ⟨rfl, ?_, ?_⟩
  · intro l hl
    simp only [parseSheetData, List.mem_filter, bne_iff_ne, ne_eq] at hl
    exact hl.2
  · simp only [parseSheetData, List.mem_filterMap] at hrd
    obtain ⟨cells, hcells, heq⟩ := hrd
    split at heq
    · cases heq
      refine ⟨cells, hcells, ?_⟩
      have := mem_processCells _ cells 0 [] kv hkv
      rcases this with h | ⟨j, c, hj, hkv2⟩
      · cases h
      · exact ⟨j, c, hj, by simpa using hkv2⟩
    · cases heq

/-- C3 counterexample: with the provided labels ["", "B"], the code maps
cell 0 to the label "B" (provided at index 1) and cell 1 to the
synthetic "Column2", whereas the claim's rule maps cell 0 to "Column1"
and cell 1 to "B". -/
theorem parseSheetData_shift_cx :
    parseSheetData exTableC3 =
      { columns := ["B"], rows := [[("B", "x"), ("Column2", "y")]] } ∧
    claimRowC3 ["", "B"] 0 [some "x", some "y"] [] =
      [("Column1", "x"), ("B", "y")] ∧
    ([("B", "x"), ("Column2", "y")] : Row) ≠ [("Column1", "x"), ("B", "y")] :=
  ⟨by decide, by decide, by decide⟩

/-- C3 witness: the amended mapping theorem applied to the concrete
table, row and key-value pair, all hypotheses discharged by evaluation. -/
theorem parseSheetData_mapping_witness :
    (([("B", "x"), ("Column2", "y")] : Row) ∈ (parseSheetData exTableC3).rows ∧
      (("B", "x") : String × String) ∈ ([("B", "x"), ("Column2", "y")] : Row)) ∧
    (((parseSheetData exTableC3).columns =
        (exTableC3.cols.map (fun c => c.getD "")).filter (fun l => l != "")) ∧
      (∀ l ∈ (parseSheetData exTableC3).columns, l ≠ "") ∧
      ∃ cells, cells ∈ exTableC3.rows ∧ ∃ j c, cells.get? j = some c ∧
        (("B", "x") : String × String) =
          (columnNameFor (parseSheetData exTableC3).columns j, cellValue c)) :=
  ⟨⟨by decide, by decide⟩,
    parseSheetData_mapping exTableC3 [("B", "x"), ("Column2", "y")] (by decide)
      ("B", "x") (by decide)⟩

theorem extractDates_snd (s : String) : (extractDates s).2 = (extractDates s).1 := by
  unfold extractDates
  rcases findDate s.data with _ | ⟨y, mo, da⟩ <;> rfl

theorem extract_endDate_eq (row : Row) (cols : List String) :
    (extractEventFromRow row cols).endDate = (extractEventFromRow row cols).startDate := by
  simp only [extractEventFromRow]
  exact extractDates_snd _

theorem addPerson_key (info : SignupInfo) (e : EventRec) :
    recordKey (addPerson info e) = recordKey e := by
  simp only [addPerson]
  split_ifs <;> rfl

theorem addPerson_nodup (info : SignupInfo) (e : EventRec)
    (hs : e.scouts.Nodup) (ha : e.adults.Nodup) :
    (addPerson info e).scouts.Nodup ∧ (addPerson info e).adults.Nodup := by
  simp only [addPerson]
  split_ifs with h1 h2 h3 h4
  · exact ⟨hs, ha⟩
  · exact ⟨hs, ha⟩
  · exact ⟨hs, by simp [List.nodup_append, ha, h3]⟩
  · exact ⟨hs, ha⟩
  · exact ⟨by simp [List.nodup_append, hs, h4], ha⟩

theorem updateAt_fst (k : String) (f : EventRec → EventRec) :
    ∀ m, (updateAt k f m).map Prod.fst = m.map Prod.fst
  | [] => rfl
  | kv :: tl => by
    show ((if kv.1 = k then (kv.1, f kv.2) else kv) :: updateAt k f tl).map Prod.fst = _
    simp only [List.map_cons]
    rw [updateAt_fst k f tl]
    congr 1
    split <;> rfl

theorem mem_updateAt {kv : String × EventRec} {k : String} {f : EventRec → EventRec}
    {m : List (String × EventRec)} (h : kv ∈ updateAt k f m) :
    ∃ kv0 ∈ m, kv = if kv0.1 = k then (kv0.1, f kv0.2) else kv0 := by
  unfold updateAt at h
  obtain ⟨kv0, h0, heq⟩ := List.mem_map.mp h
  exact ⟨kv0, h0, heq.symm⟩

theorem addSignup_good (m : List (String × EventRec)) (info : SignupInfo)
    (hm : GoodMap m) (hinfo : info.endDate = info.startDate) :
    GoodMap (addSignup m info) := by
  unfold addSignup
  split_ifs with hguard
  · set key := eventKeyOf info.eventName info.startDate info.endDate with hkey
    have hfreshkey : recordKey (freshEvent info) = key := by
      have hor : jsOrStr info.endDate info.startDate = info.endDate := by
        unfold jsOrStr
        split
        · exact hinfo.symm
        · rfl
      simp [recordKey, freshEvent, hor, hkey]
    have hm1good : GoodMap (if m.any (fun kv => kv.1 == key) then m
        else m ++ [(key, freshEvent info)]) := by
      by_cases hany : m.any (fun kv => kv.1 == key) = true
      · rw [if_pos hany]; exact hm
      · rw [if_neg hany]
        constructor
        · rw [List.map_append]
          refine List.Nodup.append hm.1 (by simp) ?_
          intro x hx hx2
          simp only [List.map_cons, List.map_nil, List.mem_singleton] at hx2
          subst hx2
          obtain ⟨kv, hkv, hfst⟩ := List.mem_map.mp hx
          have : ∀ kv ∈ m, ¬(kv.1 == key) = true := by
            intro a hamem hbeq
            exact hany (List.any_eq_true.mpr ⟨a, hamem, hbeq⟩)
          exact this kv hkv (by simp [hfst])
        · intro kv hkv
          rcases List.mem_append.mp hkv with h | h
          · exact hm.2 kv h
          · simp only [List.mem_singleton] at h
            subst h
            exact ⟨hfreshkey.symm, by simp [freshEvent], by simp [freshEvent]⟩
    constructor
    · rw [updateAt_fst]
      exact hm1good.1
    · intro kv hkv
      obtain ⟨kv0, h0, heq⟩ := mem_updateAt hkv
      have h00 := hm1good.2 kv0 h0
      by_cases hk : kv0.1 = key
      · rw [heq, if_pos hk]
        refine ⟨?_, (addPerson_nodup info kv0.2 h00.2.1 h00.2.2).1,
          (addPerson_nodup info kv0.2 h00.2.1 h00.2.2).2⟩
        show kv0.1 = recordKey (addPerson info kv0.2)
        rw [addPerson_key]
        exact h00.1
      · rw [heq, if_neg hk]
        exact h00
  · exact hm

theorem foldl_addSignup_good (columns : List String) :
    ∀ (rows : List Row) (m : List (String × EventRec)), GoodMap m →
      GoodMap (rows.foldl (fun m row => addSignup m (extractEventFromRow row columns)) m)
  | [], _, hm => hm
  | r :: rest, m, hm =>
    foldl_addSignup_good columns rest _
      (addSignup_good m _ hm (extract_endDate_eq r columns))

/-- C1 (amended): aggregation produces exactly one event record per
aggregation key (the lowercased `eventName_startDate_endDate`), and each
record's scouts and adults lists contain each exact trimmed spelling at
most once — adding a person is a no-op only when an identical trimmed
spelling is already present, so first-seen spellings are preserved, but
entries that differ in casing survive as distinct entries. -/
theorem convertSheetToEvents_dedup (sd : Payload) :
    ((convertSheetToEvents sd).map recordKey).Nodup ∧
    ∀ e ∈ convertSheetToEvents sd, e.scouts.Nodup ∧ e.adults.Nodup := by
  have hgood : GoodMap (sd.rows.foldl
      (fun m row => addSignup m (extractEventFromRow row sd.columns)) []) :=
    foldl_addSignup_good sd.columns sd.rows [] ⟨List.nodup_nil, by simp⟩
  constructor
  · have hmaps : (convertSheetToEvents sd).map recordKey =
        (sd.rows.foldl
          (fun m row => addSignup m (extractEventFromRow row sd.columns)) []).map Prod.fst := by
      unfold convertSheetToEvents
      rw [List.map_map]
      exact List.map_congr_left (fun kv hkv => ((hgood.2 kv hkv).1).symm)
    rw [hmaps]
    exact hgood.1
  · intro e he
    unfold convertSheetToEvents at he
    obtain ⟨kv, hkv, hkv2⟩ := List.mem_map.mp he
    rw [← hkv2]
    exact ⟨(hgood.2 kv hkv).2.1, (hgood.2 kv hkv).2.2⟩

/-- C1 counterexample: two rows for the same event whose person names
differ only in casing produce one event whose scouts list holds both
spellings, two entries with equal normalized (lowercase, trimmed)
forms — the per-event dedup of `convertSheetToEvents` compares exact
strings, not normalized ones. -/
theorem convertSheetToEvents_caseSensitive_cx :
    (convertSheetToEvents exSheetC1).map EventRec.scouts = [["Jane Doe", "jane doe"]] ∧
    normKey "Jane Doe" = normKey "jane doe" ∧
    ((convertSheetToEvents exSheetC1).all fun e => normDistinct e.scouts) = false :=
  ⟨by decide, by decide, by decide⟩

/-- C1 witness: the amended theorem applied to the concrete two-row
payload, the membership hypothesis discharged by evaluation. -/
theorem convertSheetToEvents_dedup_witness :
    exEventC1 ∈ convertSheetToEvents exSheetC1 ∧
    exEventC1.scouts.Nodup ∧ exEventC1.adults.Nodup :=
  ⟨by decide, (convertSheetToEvents_dedup exSheetC1).2 exEventC1 (by decide)⟩

theorem classify_foldl (today : Nat) :
    ∀ (evs : List EventRec) (acc : List EventRec × List EventRec),
      evs.foldl
        (fun fp e => if isPastB e today then (fp.1, fp.2 ++ [e]) else (fp.1 ++ [e], fp.2))
        acc =
      (acc.1 ++ evs.filter (fun e => !isPastB e today),
        acc.2 ++ evs.filter (fun e => isPastB e today))
  | [], acc => by simp
  | e :: rest, acc => by
    simp only [List.foldl_cons, List.filter_cons]
    by_cases h : isPastB e today
    · rw [if_pos h, classify_foldl today rest _]
      simp [h]
    · rw [if_neg h, classify_foldl today rest _]
      simp [h]

/-- C4: the temporal classifier partitions the aggregated events — the
future and past lists are exactly the order-preserving filters of the
input by the past test, every input event lands in exactly one of the
two lists, the test depends only on the comparison date
(`endDate || startDate`) against the reference day, an unparsable
comparison date always classifies as future (the fail-open branch,
with no exception), and a parsable one classifies as past exactly when
it is earlier than the reference day. -/
theorem classifyEvents_partition (evs : List EventRec) (today : Nat) :
    classifyEvents evs today =
      (evs.filter (fun e => !isPastB e today), evs.filter (fun e => isPastB e today)) ∧
    (∀ e ∈ evs,
      (e ∈ (classifyEvents evs today).1 ∧ e ∉ (classifyEvents evs today).2) ∨
      (e ∈ (classifyEvents evs today).2 ∧ e ∉ (classifyEvents evs today).1)) ∧
    (∀ e1 e2 : EventRec, comparisonDate e1 = comparisonDate e2 →
      isPastB e1 today = isPastB e2 today) ∧
    (∀ e : EventRec, parseJsDate (comparisonDate e) = none → isPastB e today = false) ∧
    (∀ (e : EventRec) (d : Nat), parseJsDate (comparisonDate e) = some d →
      isPastB e today = decide (d < today)) := by
  have hsplit : classifyEvents evs today =
      (evs.filter (fun e => !isPastB e today), evs.filter (fun e => isPastB e today)) := by
    unfold classifyEvents
    rw [classify_foldl today evs ([], [])]
    simp
  refine ⟨hsplit, ?_, ?_, ?_, ?_⟩
  · intro e he
    rw [hsplit]
    by_cases h : isPastB e today
    · refine Or.inr ⟨List.mem_filter.mpr ⟨he, by simp [h]⟩, ?_⟩
      intro hmem
      have := (List.mem_filter.mp hmem).2
      simp [h] at this
    · refine Or.inl ⟨List.mem_filter.mpr ⟨he, by simp [h]⟩, ?_⟩
      intro hmem
      have := (List.mem_filter.mp hmem).2
      simp [h] at this
  · intro e1 e2 h
    unfold isPastB
    rw [h]
  · intro e h
    simp [isPastB, h]
  · intro e d h
    simp [isPastB, h]

/-- C4 witness: the partition theorem applied to a one-event list and
the reference day 2025-12-01 (encoded), the membership hypothesis
discharged by evaluation. -/
theorem classifyEvents_partition_witness :
    exEventC1 ∈ [exEventC1] ∧
    ((exEventC1 ∈ (classifyEvents [exEventC1] 1037185).1 ∧
        exEventC1 ∉ (classifyEvents [exEventC1] 1037185).2) ∨
      (exEventC1 ∈ (classifyEvents [exEventC1] 1037185).2 ∧
        exEventC1 ∉ (classifyEvents [exEventC1] 1037185).1)) :=
  ⟨by decide, (classifyEvents_partition [exEventC1] 1037185).2.1 exEventC1 (by decide)⟩

/-- C9: one ingestion pass is a pure function of the payload and the
reference date — the previous application state is overwritten
wholesale — so re-running the pipeline on identical input produces
structurally identical output, and ingestion is idempotent on the
application state. -/
theorem ingest_idempotent (s : AppState) (t : SheetTable) (today : Nat) :
    ingest (ingest s t today) t today = ingest s t today ∧
    ∀ s2 : AppState, ingest s t today = ingest s2 t today :=
  ⟨rfl, fun _ => rfl⟩

/-- C5: the specification's worked example — the row with event cell
"2025 - 11/29 - Leaf Center Service Project (2 pm - 4 pm)", first name
"Jane", last name "Doe" and role "Scout" extracts to the signup record
with person name "Jane Doe", the date prefix stripped from the event
name, the zero-padded ISO start date 2025-11-29, the end date defaulting
to the start date, category "Service Project" (the ServiceProject case,
chosen by the ordered case-insensitive substring chain) and a false
adult flag. -/
theorem extractEventFromRow_example :
    extractEventFromRow exRowC5 exCols =
      { scoutName := "Jane Doe"
        eventName := "Leaf Center Service Project (2 pm - 4 pm)"
        startDate := "2025-11-29"
        endDate := "2025-11-29"
        category := "Service Project"
        isAdult := false
        rawRow := exRowC5 } := by decide

theorem foldl_scouts_bind :
    ∀ (evs : List EventRec) (acc : List Identity),
      evs.foldl (fun acc e => e.scouts.foldl addScout acc) acc =
        (evs.flatMap EventRec.scouts).foldl addScout acc
  | [], _ => rfl
  | e :: rest, acc => by
    simp only [List.foldl_cons, List.flatMap_cons, List.foldl_append]
    rw [foldl_scouts_bind rest _]

theorem extractUniqueScouts_eq (f p : List EventRec) :
    extractUniqueScouts f p = ((f ++ p).flatMap EventRec.scouts).foldl addScout [] := by
  unfold extractUniqueScouts
  rw [foldl_scouts_bind, foldl_scouts_bind, List.flatMap_append, List.foldl_append]

theorem dedupSeen_congr :
    ∀ (l : List String) (seen1 seen2 : List String),
      (∀ x, x ∈ seen1 ↔ x ∈ seen2) → dedupSeen seen1 l = dedupSeen seen2 l
  | [], _, _, _ => rfl
  | n :: ns, seen1, seen2, h => by
    simp only [dedupSeen]
    by_cases hmem : jsToLower n ∈ seen1
    · rw [if_pos hmem, if_pos ((h _).mp hmem), dedupSeen_congr ns seen1 seen2 h]
    · rw [if_neg hmem, if_neg (fun hc => hmem ((h _).mpr hc))]
      rw [dedupSeen_congr ns (jsToLower n :: seen1) (jsToLower n :: seen2)
        (fun x => by simp [h x])]

theorem foldl_addScout_main :
    ∀ (ns : List String) (acc : List Identity),
      (∀ id ∈ acc, id.normalized = jsToLower id.fullName) →
      (acc.map Identity.normalized).Nodup →
      ((ns.foldl addScout acc).map Identity.fullName =
          acc.map Identity.fullName ++
            dedupSeen (acc.map Identity.normalized)
              ((ns.map jsTrim).filter (fun n => n != ""))) ∧
      ((ns.foldl addScout acc).map Identity.normalized).Nodup ∧
      (∀ id ∈ ns.foldl addScout acc,
        id ∈ acc ∨
          (id.normalized = jsToLower id.fullName ∧
            id.firstName = (jsSplitWs id.fullName).headD "" ∧
            id.lastName = String.intercalate " " ((jsSplitWs id.fullName).drop 1) ∧
            ∃ raw, raw ∈ ns ∧ id.fullName = jsTrim raw))
  | [], acc, _, hnodup => ⟨by simp [dedupSeen], hnodup, fun id h => Or.inl h⟩
  | raw :: ns, acc, hfields, hnodup => by
    simp only [List.foldl_cons, List.map_cons, List.filter_cons]
    by_cases hname : jsTrim raw = ""
    · have ha : addScout acc raw = acc := by
        simp only [addScout]
        rw [if_pos hname]
      rw [ha, if_neg (by simp [hname])]
      obtain ⟨h1, h2, h3⟩ := foldl_addScout_main ns acc hfields hnodup
      refine ⟨h1, h2, ?_⟩
      intro id hid
      rcases h3 id hid with h | ⟨a, b, c, r, hr, hd⟩
      · exact Or.inl h
      · exact Or.inr ⟨a, b, c, r, List.mem_cons_of_mem _ hr, hd⟩
    · rw [if_pos (by simp [hname])]
      by_cases hany : acc.any (fun id => id.normalized == jsToLower (jsTrim raw)) = true
      · have ha : addScout acc raw = acc := by
          simp only [addScout]
          rw [if_neg hname, if_pos hany]
        rw [ha]
        have hkey_mem : jsToLower (jsTrim raw) ∈ acc.map Identity.normalized := by
          rw [List.any_eq_true] at hany
          obtain ⟨id, hid, hkeq⟩ := hany
          exact List.mem_map.mpr ⟨id, hid, by simpa using hkeq⟩
        rw [show dedupSeen (acc.map Identity.normalized)
            (jsTrim raw :: (ns.map jsTrim).filter (fun n => n != "")) =
            dedupSeen (acc.map Identity.normalized)
              ((ns.map jsTrim).filter (fun n => n != "")) from by
          simp only [dedupSeen]
          rw [if_pos hkey_mem]]
        obtain ⟨h1, h2, h3⟩ := foldl_addScout_main ns acc hfields hnodup
        refine ⟨h1, h2, ?_⟩
        intro id hid
        rcases h3 id hid with h | ⟨a, b, c, r, hr, hd⟩
        · exact Or.inl h
        · exact Or.inr ⟨a, b, c, r, List.mem_cons_of_mem _ hr, hd⟩
      · have ha : addScout acc raw = acc ++
            [mkIdentity (jsTrim raw)] := by
          simp only [addScout]
          rw [if_neg hname, if_neg hany]
        have hkey_notmem : jsToLower (jsTrim raw) ∉ acc.map Identity.normalized := by
          intro hmem
          obtain ⟨id, hid, hkeq⟩ := List.mem_map.mp hmem
          exact hany (List.any_eq_true.mpr ⟨id, hid, by simp [hkeq]⟩)
        rw [ha]
        have hfields2 : ∀ id ∈ acc ++
            [mkIdentity (jsTrim raw)],
            id.normalized = jsToLower id.fullName := by
          intro id hid
          rcases List.mem_append.mp hid with h | h
          · exact hfields id h
          · simp only [List.mem_singleton] at h
            rw [h]
            rfl
        have hnodup2 : ((acc ++
            [mkIdentity (jsTrim raw)]).map Identity.normalized).Nodup := by
          rw [List.map_append]
          refine List.Nodup.append hnodup (by simp) ?_
          intro x hx hx2
          simp only [List.map_cons, List.map_nil, List.mem_singleton] at hx2
          subst hx2
          exact hkey_notmem hx
        obtain ⟨h1, h2, h3⟩ := foldl_addScout_main ns _ hfields2 hnodup2
        refine ⟨?_, h2, ?_⟩
        · rw [h1, List.map_append, List.map_append]
          simp only [List.map_cons, List.map_nil]
          rw [show (mkIdentity (jsTrim raw)).fullName = jsTrim raw from rfl,
            show (mkIdentity (jsTrim raw)).normalized = jsToLower (jsTrim raw) from rfl]
          rw [show dedupSeen (acc.map Identity.normalized)
              (jsTrim raw :: (ns.map jsTrim).filter (fun n => n != "")) =
              jsTrim raw :: dedupSeen (jsToLower (jsTrim raw) :: acc.map Identity.normalized)
                ((ns.map jsTrim).filter (fun n => n != "")) from by
            simp only [dedupSeen]
            rw [if_neg hkey_notmem]]
          rw [dedupSeen_congr _ (acc.map Identity.normalized ++ [jsToLower (jsTrim raw)])
            (jsToLower (jsTrim raw) :: acc.map Identity.normalized)
            (fun x => by simp [or_comm])]
          simp
        · intro id hid
          rcases h3 id hid with h | ⟨a, b, c, r, hr, hd⟩
          · rcases List.mem_append.mp h with h4 | h4
            · exact Or.inl h4
            · simp only [List.mem_singleton] at h4
              subst h4
              exact Or.inr ⟨rfl, rfl, rfl, raw, List.mem_cons_self _ _, rfl⟩
          · exact Or.inr ⟨a, b, c, r, List.mem_cons_of_mem _ hr, hd⟩

/-- C8: the identity extractor returns one identity per distinct scout
name under the lowercase-of-trimmed dedup key, in first-seen order over
the future events followed by the past events; each identity's full name
is the first-seen trimmed spelling, its first name is the first
whitespace token and its last name the remaining tokens joined by single
spaces, the normalized keys are pairwise distinct, and every identity
originates from some event's scouts array — a name appearing only in
adults arrays never enters the corpus. -/
theorem extractUniqueScouts_spec (f p : List EventRec) :
    ((extractUniqueScouts f p).map Identity.fullName =
      dedupFirstSeen ((((f ++ p).flatMap EventRec.scouts).map jsTrim).filter
        (fun n => n != ""))) ∧
    ((extractUniqueScouts f p).map Identity.normalized).Nodup ∧
    (∀ id ∈ extractUniqueScouts f p,
      id.normalized = jsToLower id.fullName ∧
      id.firstName = (jsSplitWs id.fullName).headD "" ∧
      id.lastName = String.intercalate " " ((jsSplitWs id.fullName).drop 1) ∧
      ∃ e, e ∈ f ++ p ∧ ∃ raw, raw ∈ e.scouts ∧ id.fullName = jsTrim raw) := by
  rw [extractUniqueScouts_eq]
  obtain ⟨h1, h2, h3⟩ :=
    foldl_addScout_main ((f ++ p).flatMap EventRec.scouts) [] (by simp) (by simp)
  refine ⟨by simpa [dedupFirstSeen] using h1, h2, ?_⟩
  intro id hid
  rcases h3 id hid with h | ⟨ha, hb, hc, raw, hraw, hd⟩
  · cases h
  · obtain ⟨e, he, hmem⟩ := List.mem_flatMap.mp hraw
    exact ⟨ha, hb, hc, e, he, raw, hmem, hd⟩

/-- C8 witness: the extractor theorem applied to the one-event corpus
built from the concrete sheet, with the membership hypothesis discharged
by evaluation on the first extracted identity. -/
theorem extractUniqueScouts_spec_witness :
    ({ fullName := "Jane Doe", firstName := "Jane", lastName := "Doe",
       normalized := "jane doe" } : Identity) ∈ extractUniqueScouts [exEventC1] [] ∧
    (({ fullName := "Jane Doe", firstName := "Jane", lastName := "Doe",
        normalized := "jane doe" } : Identity).normalized =
        jsToLower "Jane Doe" ∧
      ({ fullName := "Jane Doe", firstName := "Jane", lastName := "Doe",
         normalized := "jane doe" } : Identity).firstName =
        (jsSplitWs "Jane Doe").headD "" ∧
      ({ fullName := "Jane Doe", firstName := "Jane", lastName := "Doe",
         normalized := "jane doe" } : Identity).lastName =
        String.intercalate " " ((jsSplitWs "Jane Doe").drop 1) ∧
      ∃ e, e ∈ [exEventC1] ++ [] ∧ ∃ raw, raw ∈ e.scouts ∧
        ("Jane Doe" : String) = jsTrim raw) :=
  ⟨by decide,
    (extractUniqueScouts_spec [exEventC1] []).2.2
      { fullName := "Jane Doe", firstName := "Jane", lastName := "Doe",
        normalized := "jane doe" } (by decide)⟩

theorem scoutScore_eq_claim (searchTerm : String) (s : Identity) :
    scoutScore searchTerm s = claimScoreC6 searchTerm s := by
  have ha : (0:ℚ) ≤ calculateSimilarity s.fullName searchTerm :=
    (similarity_in_range s.fullName searchTerm).1
  have hb : (0:ℚ) ≤ calculateSimilarity s.firstName searchTerm :=
    (similarity_in_range s.firstName searchTerm).1
  have hc : (0:ℚ) ≤ calculateSimilarity s.lastName searchTerm :=
    (similarity_in_range s.lastName searchTerm).1
  have step1 : (if calculateSimilarity s.fullName searchTerm > 3/10 then
        max 0 (calculateSimilarity s.fullName searchTerm) else 0) =
      (if calculateSimilarity s.fullName searchTerm > 3/10 then
        calculateSimilarity s.fullName searchTerm else 0) := by
    split_ifs
    · exact max_eq_right ha
    · rfl
  have hA0 : (0:ℚ) ≤ (if calculateSimilarity s.fullName searchTerm > 3/10 then
      calculateSimilarity s.fullName searchTerm else 0) := by
    split_ifs
    · exact ha
    · exact le_refl 0
  have step2 : ∀ s1 : ℚ, 0 ≤ s1 →
      (if calculateSimilarity s.firstName searchTerm > 3/10 then
        max s1 (calculateSimilarity s.firstName searchTerm * (9/10)) else s1) =
      max s1 (if calculateSimilarity s.firstName searchTerm > 3/10 then
        calculateSimilarity s.firstName searchTerm * (9/10) else 0) := by
    intro s1 hs1
    split_ifs
    · rfl
    · exact (max_eq_left hs1).symm
  have step3 : ∀ s2 : ℚ, 0 ≤ s2 →
      (if calculateSimilarity s.lastName searchTerm > 3/10 then
        max s2 (calculateSimilarity s.lastName searchTerm * (9/10)) else s2) =
      max s2 (if calculateSimilarity s.lastName searchTerm > 3/10 then
        calculateSimilarity s.lastName searchTerm * (9/10) else 0) := by
    intro s2 hs2
    split_ifs
    · rfl
    · exact (max_eq_left hs2).symm
  simp only [scoutScore, claimScoreC6]
  rw [step1, step2 _ hA0, step3 _ (le_trans hA0 (le_max_left _ _))]

theorem collectScored_aux (searchTerm : String) :
    ∀ (corpus : List Identity) (acc : List (Identity × ℚ)),
      corpus.foldl
        (fun rs s =>
          if scoutScore searchTerm s > 3/10 then rs ++ [(s, scoutScore searchTerm s)]
          else rs) acc =
      acc ++ corpus.filterMap (fun s =>
        if scoutScore searchTerm s > 3/10 then some (s, scoutScore searchTerm s) else none)
  | [], acc => by simp
  | s :: rest, acc => by
    simp only [List.foldl_cons, List.filterMap_cons]
    by_cases h : scoutScore searchTerm s > 3/10
    · rw [if_pos h, collectScored_aux searchTerm rest _, if_pos h]
      simp
    · rw [if_neg h, collectScored_aux searchTerm rest _, if_neg h]

theorem collectScored_eq (searchTerm : String) (corpus : List Identity) :
    collectScored searchTerm corpus =
      corpus.filterMap (fun s =>
        if scoutScore searchTerm s > 3/10 then some (s, scoutScore searchTerm s) else none) := by
  unfold collectScored
  rw [collectScored_aux]
  rfl

theorem searchScouts_mem_iff (q : String) (corpus : List Identity) (s : Identity) :
    s ∈ searchScouts q corpus ↔
      (jsTrim q ≠ "" ∧ corpus ≠ [] ∧ s ∈ corpus ∧
        scoutScore (jsToLower (jsTrim q)) s > 3/10) := by
  unfold searchScouts searchScoutsScored
  by_cases hq : jsTrim q = ""
  · simp [hq]
  · rw [if_neg hq]
    by_cases hc : corpus.isEmpty
    · rw [if_pos hc]
      have : corpus = [] := List.isEmpty_iff.mp hc
      simp [hq, this]
    · rw [if_neg hc]
      have hcne : corpus ≠ [] := fun h => hc (by simp [h])
      constructor
      · intro hs
        obtain ⟨p, hp, hfst⟩ := List.mem_map.mp hs
        have hp2 : p ∈ collectScored (jsToLower (jsTrim q)) corpus :=
          (List.perm_insertionSort rankRel _).mem_iff.mp hp
        rw [collectScored_eq] at hp2
        obtain ⟨s0, hs0, heq⟩ := List.mem_filterMap.mp hp2
        by_cases hsc : scoutScore (jsToLower (jsTrim q)) s0 > 3/10
        · rw [if_pos hsc] at heq
          cases heq
          exact ⟨hq, hcne, by rwa [← hfst], by rwa [← hfst]⟩
        · rw [if_neg hsc] at heq
          cases heq
      · rintro ⟨-, -, hs, hscore⟩
        apply List.mem_map.mpr
        refine ⟨(s, scoutScore (jsToLower (jsTrim q)) s), ?_, rfl⟩
        apply (List.perm_insertionSort rankRel _).mem_iff.mpr
        rw [collectScored_eq]
        exact List.mem_filterMap.mpr ⟨s, hs, by rw [if_pos hscore]⟩

/-- C6: the score `searchScouts` computes for an identity equals the
claim's formula — the maximum of the full-name similarity at full weight
and the first/last-name similarities at 0.9 weight, each candidate
contributing only when its raw similarity exceeds 0.3, forced to at
least 0.7 when the query is a case-insensitive literal substring of the
full, first or last name — every returned identity scores above 0.3,
and for a non-blank query an identity of the corpus is returned exactly
when its score exceeds 0.3. -/
theorem searchScouts_score_spec (q : String) (corpus : List Identity) :
    (∀ s : Identity,
      scoutScore (jsToLower (jsTrim q)) s = claimScoreC6 (jsToLower (jsTrim q)) s) ∧
    (∀ s ∈ searchScouts q corpus, claimScoreC6 (jsToLower (jsTrim q)) s > 3/10) ∧
    (jsTrim q ≠ "" → ∀ s ∈ corpus,
      (s ∈ searchScouts q corpus ↔ claimScoreC6 (jsToLower (jsTrim q)) s > 3/10)) := by
  refine ⟨fun s => scoutScore_eq_claim _ s, ?_, ?_⟩
  · intro s hs
    have := (searchScouts_mem_iff q corpus s).mp hs
    rw [← scoutScore_eq_claim]
    exact this.2.2.2
  · intro hq s hs
    rw [searchScouts_mem_iff, ← scoutScore_eq_claim]
    constructor
    · exact fun h => h.2.2.2
    · intro h
      exact ⟨hq, fun hnil => by simp [hnil] at hs, hs, h⟩

/-- C6 witness: the scoring theorem applied to the query "al" and the
one-identity corpus, with the non-blank-query and membership hypotheses
discharged by evaluation. -/
theorem searchScouts_score_spec_witness :
    jsTrim "al" ≠ "" ∧ exIdentityAl ∈ [exIdentityAl] ∧
    (exIdentityAl ∈ searchScouts "al" [exIdentityAl] ↔
      claimScoreC6 (jsToLower (jsTrim "al")) exIdentityAl > 3/10) :=
  ⟨by decide, by decide,
    (searchScouts_score_spec "al" [exIdentityAl]).2.2 (by decide) exIdentityAl (by decide)⟩

theorem orderedInsert_filter (v : ℚ) (x : Identity × ℚ) :
    ∀ l : List (Identity × ℚ),
      (List.orderedInsert rankRel x l).filter (fun sv => decide (sv.2 = v)) =
        if x.2 = v then x :: l.filter (fun sv => decide (sv.2 = v))
        else l.filter (fun sv => decide (sv.2 = v))
  | [] => by
    by_cases hx : x.2 = v <;> simp [List.orderedInsert, hx]
  | y :: ys => by
    simp only [List.orderedInsert]
    by_cases hr : rankRel x y
    · rw [if_pos hr]
      by_cases hx : x.2 = v <;> by_cases hy : y.2 = v <;>
        simp [List.filter_cons, hx, hy]
    · rw [if_neg hr]
      have hlt : x.2 < y.2 := not_le.mp (fun h => hr h)
      rw [List.filter_cons, orderedInsert_filter v x ys]
      by_cases hx : x.2 = v <;> by_cases hy : y.2 = v
      · exact absurd (hy.trans hx.symm) (ne_of_gt hlt)
      · simp [hx, hy]
      · simp [hx, hy]
      · simp [hx, hy]

theorem insertionSort_filter (v : ℚ) :
    ∀ l : List (Identity × ℚ),
      (List.insertionSort rankRel l).filter (fun sv => decide (sv.2 = v)) =
        l.filter (fun sv => decide (sv.2 = v))
  | [] => rfl
  | x :: xs => by
    simp only [List.insertionSort]
    rw [orderedInsert_filter, insertionSort_filter v xs, List.filter_cons]
    by_cases hx : x.2 = v <;> simp [hx]

theorem collectScored_fst_sublist (searchTerm : String) (corpus : List Identity) :
    List.Sublist ((collectScored searchTerm corpus).map Prod.fst) corpus := by
  rw [collectScored_eq]
  induction corpus with
  | nil => simp
  | cons s rest ih =>
    by_cases h : scoutScore searchTerm s > 3/10
    · simp only [List.filterMap_cons, if_pos h, List.map_cons]
      exact List.Sublist.cons₂ _ ih
    · simp only [List.filterMap_cons, if_neg h]
      exact List.Sublist.cons _ ih

/-- C7: the identities `searchScouts` returns are the first components
of the sorted scored list; that list is sorted in descending score order
(a stable sort, as ECMAScript guarantees for `Array.prototype.sort`), and
for a non-blank query the entries carrying any fixed score appear in the
sorted output in exactly the order the corpus produced them — and the
pre-sort scored list itself preserves corpus order, being a sublist of
the corpus. -/
theorem searchScouts_ranking (q : String) (corpus : List Identity) :
    searchScouts q corpus = (searchScoutsScored q corpus).map Prod.fst ∧
    List.Pairwise (fun a b : Identity × ℚ => b.2 ≤ a.2) (searchScoutsScored q corpus) ∧
    (jsTrim q ≠ "" → ∀ v : ℚ,
      (searchScoutsScored q corpus).filter (fun sv => decide (sv.2 = v)) =
        (collectScored (jsToLower (jsTrim q)) corpus).filter (fun sv => decide (sv.2 = v))) ∧
    List.Sublist ((collectScored (jsToLower (jsTrim q)) corpus).map Prod.fst) corpus := by
  refine ⟨rfl, ?_, ?_, collectScored_fst_sublist _ _⟩
  · unfold searchScoutsScored
    split_ifs
    · exact List.Pairwise.nil
    · exact List.Pairwise.nil
    · exact List.sorted_insertionSort rankRel _
  · intro hq v
    unfold searchScoutsScored
    rw [if_neg hq]
    by_cases hc : corpus.isEmpty
    · rw [if_pos hc]
      have : corpus = [] := List.isEmpty_iff.mp hc
      subst this
      rfl
    · rw [if_neg hc]
      exact insertionSort_filter v _

/-- C7 witness: the ranking theorem applied to the query "al" and the
one-identity corpus, with the non-blank-query hypothesis discharged by
evaluation, at score value 1. -/
theorem searchScouts_ranking_witness :
    jsTrim "al" ≠ "" ∧
    (searchScoutsScored "al" [exIdentityAl]).filter (fun sv => decide (sv.2 = 1)) =
      (collectScored (jsToLower (jsTrim "al")) [exIdentityAl]).filter
        (fun sv => decide (sv.2 = 1)) :=
  ⟨by decide, (searchScouts_ranking "al" [exIdentityAl]).2.2.1 (by decide) 1⟩
